import Mathlib

/-!
Shallow embedding of the express-zod-validations middleware (src/index.ts).

The repository exports a `validate` middleware factory: given a map from
request-part keys to schemas, the middleware validates each configured part
of the live request against its schema, recording outcomes on request-scoped
state (`validationErrors`, `validationValues`), optionally overwriting the
live request data, and optionally short-circuiting to the framework error
path on the first failure.

Modelling decisions, each traceable to the source:
  - A JavaScript object passed as the schema map is embedded as an ordered
    association list `List (String × Option Schema)`: `Object.entries`
    iterates own enumerable string keys in insertion order, an entry whose
    value is `undefined` or `null` is skipped by `if (!schema) continue`,
    and keys of an object are pairwise distinct (stated as a hypothesis
    where a proof needs it, never baked into the type, since the runtime
    loop itself never checks it).
  - `schema.safeParseAsync(req[key], options)` is an external engine call;
    a schema is embedded as a function from engine options and the supplied
    value to one of three outcomes: a success carrying transformed data, a
    failure carrying a structured error, or a thrown exception (the engine
    throwing instead of returning a result), which the try/catch of the
    middleware forwards to `next`.
  - The live request object is a string-keyed property bag `reqData`
    (reading a missing property yields `undefined`); the three
    request-scoped fields `validationConfigs`, `validationErrors`,
    `validationValues` are optional, matching the `?:` fields of
    `ValidationRequest`, and are lazily initialised by `??=`.
  - Calling `next` is embedded in the result: `NextArg.noArg` for `next()`,
    `NextArg.errArg e` for `next(result.error)` on the throwErrors path,
    `NextArg.exnArg e` for `next(error)` in the catch block.
  - Async suspension has no observable interleaving here (parts are awaited
    strictly sequentially), so the middleware body is a pure function from
    the incoming request to the final request and the `next` argument.
-/

namespace EZV

/-- Values carried by request parts and produced by schemas; `undef` plays
the role of the JavaScript `undefined` read off a missing property. -/
inductive Value where
  | undef : Value
  | vnat : Nat → Value
  | vstr : String → Value
deriving DecidableEq, Repr

/-- Structured validation error produced by the engine (the ZodError of the
source); its internal issue list is irrelevant to the claims, an identifier
suffices to track identity of errors. -/
structure ZErr where
  eid : Nat
deriving DecidableEq, Repr

/-- An engine-internal exception (the engine throwing rather than returning
a failure result). -/
abbrev Exn := Nat

/-- Outcome of one `safeParseAsync` call. -/
inductive ParseOutcome where
  | success : Value → ParseOutcome
  | failure : ZErr → ParseOutcome
  | thrown : Exn → ParseOutcome
deriving DecidableEq, Repr

/-- Engine parse options (`ValidationOptions` of the source), passed through
to every schema call unchanged. -/
abbrev Opts := Option Nat

/-- A schema is its validation behaviour: engine options and the supplied
value determine the outcome. -/
abbrev Schema := Opts → Value → ParseOutcome

/-- ValidationConfigs of the source: two optional booleans. -/
structure ValidationConfigs where
  throwErrors : Option Bool := none
  overwriteRequest : Option Bool := none
deriving DecidableEq, Repr

/-- Lookup in a string-keyed association list (JavaScript property read). -/
def alGet {α : Type} : List (String × α) → String → Option α
  | [], _ => none
  | (k', v) :: rest, k => if k' = k then some v else alGet rest k

/-- Removal of a key (the JavaScript `delete` statement). -/
def alErase {α : Type} : List (String × α) → String → List (String × α)
  | [], _ => []
  | (k', v) :: rest, k =>
      if k' = k then alErase rest k else (k', v) :: alErase rest k

/-- Assignment of a key (the JavaScript property write). -/
def alSet {α : Type} (m : List (String × α)) (k : String) (v : α) :
    List (String × α) :=
  alErase m k ++ [(k, v)]

/-- The live request together with the three request-scoped validation
fields of `ValidationRequest`. -/
structure Request where
  reqData : List (String × Value)
  validationConfigs : Option ValidationConfigs := none
  validationErrors : Option (List (String × ZErr)) := none
  validationValues : Option (List (String × Value)) := none
deriving DecidableEq, Repr

/-- The argument the middleware passes to `next`. -/
inductive NextArg where
  | noArg : NextArg
  | errArg : ZErr → NextArg
  | exnArg : Exn → NextArg
deriving DecidableEq, Repr

/-- Live request property read `req[key]`. -/
def propAt (req : Request) (k : String) : Value :=
  (alGet req.reqData k).getD Value.undef

/-- Error-map entry for a key, `none` when the map itself is absent. -/
def errAt (req : Request) (k : String) : Option ZErr :=
  match req.validationErrors with
  | none => none
  | some m => alGet m k

/-- Value-map entry for a key, `none` when the map itself is absent. -/
def valAt (req : Request) (k : String) : Option Value :=
  match req.validationValues with
  | none => none
  | some m => alGet m k

/-- The configuration middleware `expressZodValidations(configs)`: stores
the record on the request and continues. -/
def expressZodValidations (configs : ValidationConfigs) (req : Request) :
    Request × NextArg :=
  ({ req with validationConfigs := some configs }, NextArg.noArg)

/-- Success branch of the loop body: `delete req.validationErrors[key];
req.validationValues[key] = result.data; if (overwriteRequest) req[key] =
result.data`. -/
def recordSuccess (overwriteRequest : Bool) (key : String) (data : Value)
    (req : Request) : Request :=
  let req1 := { req with
    validationErrors := some (alErase (req.validationErrors.getD []) key),
    validationValues := some (alSet (req.validationValues.getD []) key data) }
  if overwriteRequest then { req1 with reqData := alSet req1.reqData key data }
  else req1

/-- Failure branch of the loop body: `req.validationErrors[key] =
result.error; delete req.validationValues[key]`. -/
def recordFailure (key : String) (error : ZErr) (req : Request) : Request :=
  { req with
    validationErrors := some (alSet (req.validationErrors.getD []) key error),
    validationValues := some (alErase (req.validationValues.getD []) key) }

/-- The `for (const [key, schema] of Object.entries(props))` loop of
`validate`: entries with a missing schema are skipped; a success or failure
is recorded; on failure with throwErrors the loop returns `next(error)`; an
engine exception escapes to the catch block, which forwards it unchanged,
leaving the request exactly as the preceding iterations built it. -/
def validateLoop (throwErrors overwriteRequest : Bool) (options : Opts) :
    List (String × Option Schema) → Request → Request × NextArg
  | [], req => (req, NextArg.noArg)
  | (_, none) :: rest, req =>
      validateLoop throwErrors overwriteRequest options rest req
  | (key, some schema) :: rest, req =>
      match schema options (propAt req key) with
      | ParseOutcome.success data =>
          validateLoop throwErrors overwriteRequest options rest
            (recordSuccess overwriteRequest key data req)
      | ParseOutcome.failure error =>
          let req1 := recordFailure key error req
          if throwErrors then (req1, NextArg.errArg error)
          else validateLoop throwErrors overwriteRequest options rest req1
      | ParseOutcome.thrown e => (req, NextArg.exnArg e)

/-- Lazy initialisation performed at the top of the middleware:
`req.validationConfigs ??= {}; req.validationErrors ??= {};
req.validationValues ??= {}`. -/
def initState (req : Request) : Request :=
  { req with
    validationConfigs := some (req.validationConfigs.getD {}),
    validationErrors := some (req.validationErrors.getD []),
    validationValues := some (req.validationValues.getD []) }

/-- Effective throwErrors switch: `const { throwErrors = false } =
req.validationConfigs` after the lazy initialisation. -/
def effThrowErrors (req : Request) : Bool :=
  (req.validationConfigs.getD {}).throwErrors.getD false

/-- Effective overwriteRequest switch, resolved the same way. -/
def effOverwrite (req : Request) : Bool :=
  (req.validationConfigs.getD {}).overwriteRequest.getD false

/-- The body of the middleware after lazy initialisation and configuration
resolution, parameterised by the not-yet-consumed part list. -/
def stage (options : Opts) (props : List (String × Option Schema))
    (req : Request) : Request × NextArg :=
  validateLoop (effThrowErrors req) (effOverwrite req) options props
    (initState req)

/-- The middleware produced by `validate(props, options)`, as a function
from the incoming request to the final request and the argument passed to
`next`. -/
def validate (props : List (String × Option Schema)) (options : Opts)
    (req : Request) : Request × NextArg :=
  stage options props req

/-- validateHeaders(headers, options) = validate({ headers }, options). -/
def validateHeaders (headers : Schema) (options : Opts) :
    Request → Request × NextArg :=
  validate [("headers", some headers)] options

/-- validateParams(params, options) = validate({ params }, options). -/
def validateParams (params : Schema) (options : Opts) :
    Request → Request × NextArg :=
  validate [("params", some params)] options

/-- validateQuery(query, options) = validate({ query }, options). -/
def validateQuery (query : Schema) (options : Opts) :
    Request → Request × NextArg :=
  validate [("query", some query)] options

/-- validateBody(body, options) = validate({ body }, options). -/
def validateBody (body : Schema) (options : Opts) :
    Request → Request × NextArg :=
  validate [("body", some body)] options

/-! Association-list lemmas. -/

theorem alGet_alErase_self {α : Type} (m : List (String × α)) (k : String) :
    alGet (alErase m k) k = none := by
  induction m with
  | nil => rfl
  | cons p rest ih =>
      obtain ⟨k', v⟩ := p
      by_cases h : k' = k
      · simp [alErase, h, ih]
      · simp [alErase, alGet, h, ih]

theorem alGet_alErase_ne {α : Type} (m : List (String × α)) (k k' : String)
    (h : k ≠ k') : alGet (alErase m k) k' = alGet m k' := by
  induction m with
  | nil => rfl
  | cons p rest ih =>
      obtain ⟨k'', v⟩ := p
      by_cases h1 : k'' = k
      · subst h1
        simp [alErase, alGet, h, ih]
      · by_cases h2 : k'' = k'
        · subst h2
          have h4 : ¬(k'' = k) := fun he => h (Eq.symm he)
          simp [alErase, alGet, h1, h4, ih]
        · simp [alErase, alGet, h1, h2, ih]

theorem alGet_append {α : Type} (m1 m2 : List (String × α)) (k : String) :
    alGet (m1 ++ m2) k =
      match alGet m1 k with
      | some v => some v
      | none => alGet m2 k := by
  induction m1 with
  | nil => rfl
  | cons p rest ih =>
      obtain ⟨k', v⟩ := p
      by_cases h : k' = k
      · simp [alGet, h]
      · simp [alGet, h, ih]

theorem alGet_alSet_self {α : Type} (m : List (String × α)) (k : String)
    (v : α) : alGet (alSet m k v) k = some v := by
  simp [alSet, alGet_append, alGet_alErase_self, alGet]

theorem alGet_alSet_ne {α : Type} (m : List (String × α)) (k k' : String)
    (v : α) (h : k ≠ k') : alGet (alSet m k v) k' = alGet m k' := by
  simp [alSet, alGet_append, alGet_alErase_ne m k k' h]
  cases alGet m k' with
  | none => simp [alGet, h]
  | some w => simp

/-! Lookup behaviour of the two loop-body updates. -/

theorem errAt_recordSuccess (ow : Bool) (key : String) (data : Value)
    (req : Request) (k : String) :
    errAt (recordSuccess ow key data req) k =
      if key = k then none else errAt req k := by
  by_cases h : key = k
  · cases ow <;>
      simp [recordSuccess, errAt, h, alGet_alErase_self]
  · cases ow <;>
      cases hm : req.validationErrors <;>
        simp [recordSuccess, errAt, h, hm, alGet_alErase_ne _ _ _ h, alGet]

theorem valAt_recordSuccess (ow : Bool) (key : String) (data : Value)
    (req : Request) (k : String) :
    valAt (recordSuccess ow key data req) k =
      if key = k then some data else valAt req k := by
  by_cases h : key = k
  · cases ow <;>
      simp [recordSuccess, valAt, h, alGet_alSet_self]
  · cases ow <;>
      cases hm : req.validationValues <;>
        simp [recordSuccess, valAt, h, hm, alGet_alSet_ne _ _ _ _ h, alGet]

theorem propAt_recordSuccess (ow : Bool) (key : String) (data : Value)
    (req : Request) (k : String) :
    propAt (recordSuccess ow key data req) k =
      if ow = true ∧ key = k then data else propAt req k := by
  cases ow with
  | false => simp [recordSuccess, propAt]
  | true =>
      by_cases h : key = k
      · simp [recordSuccess, propAt, h, alGet_alSet_self]
      · simp [recordSuccess, propAt, h, alGet_alSet_ne _ _ _ _ h]

theorem configs_recordSuccess (ow : Bool) (key : String) (data : Value)
    (req : Request) :
    (recordSuccess ow key data req).validationConfigs =
      req.validationConfigs := by
  cases ow <;> simp [recordSuccess]

theorem errAt_recordFailure (key : String) (error : ZErr) (req : Request)
    (k : String) :
    errAt (recordFailure key error req) k =
      if key = k then some error else errAt req k := by
  by_cases h : key = k
  · simp [recordFailure, errAt, h, alGet_alSet_self]
  · cases hm : req.validationErrors <;>
      simp [recordFailure, errAt, h, hm, alGet_alSet_ne _ _ _ _ h, alGet]

theorem valAt_recordFailure (key : String) (error : ZErr) (req : Request)
    (k : String) :
    valAt (recordFailure key error req) k =
      if key = k then none else valAt req k := by
  by_cases h : key = k
  · simp [recordFailure, valAt, h, alGet_alErase_self]
  · cases hm : req.validationValues <;>
      simp [recordFailure, valAt, h, hm, alGet_alErase_ne _ _ _ h, alGet]

theorem propAt_recordFailure (key : String) (error : ZErr) (req : Request)
    (k : String) :
    propAt (recordFailure key error req) k = propAt req k := by
  simp [recordFailure, propAt]

theorem configs_recordFailure (key : String) (error : ZErr) (req : Request) :
    (recordFailure key error req).validationConfigs =
      req.validationConfigs := by
  simp [recordFailure]

/-! Lookup behaviour of the lazy initialisation. -/

theorem errAt_initState (req : Request) (k : String) :
    errAt (initState req) k = errAt req k := by
  cases hm : req.validationErrors <;> simp [initState, errAt, hm, alGet]

theorem valAt_initState (req : Request) (k : String) :
    valAt (initState req) k = valAt req k := by
  cases hm : req.validationValues <;> simp [initState, valAt, hm, alGet]

theorem propAt_initState (req : Request) (k : String) :
    propAt (initState req) k = propAt req k := by
  simp [initState, propAt]

/-! Loop-level lemmas. -/

theorem validateLoop_append (te ow : Bool) (opts : Opts)
    (l1 l2 : List (String × Option Schema)) (req : Request)
    (h : (validateLoop te ow opts l1 req).2 = NextArg.noArg) :
    validateLoop te ow opts (l1 ++ l2) req =
      validateLoop te ow opts l2 (validateLoop te ow opts l1 req).1 := by
  induction l1 generalizing req with
  | nil => simp [validateLoop]
  | cons p rest ih =>
      obtain ⟨key, sch⟩ := p
      cases sch with
      | none =>
          simpa [validateLoop] using ih req (by simpa [validateLoop] using h)
      | some schema =>
          cases ho : schema opts (propAt req key) with
          | success data =>
              simpa [validateLoop, ho] using
                ih (recordSuccess ow key data req)
                  (by simpa [validateLoop, ho] using h)
          | failure error =>
              cases hte : te with
              | true => simp [validateLoop, ho, hte] at h
              | false =>
                  simpa [validateLoop, ho, hte] using
                    ih (recordFailure key error req)
                      (by simpa [validateLoop, ho, hte] using h)
          | thrown e => simp [validateLoop, ho] at h

theorem validateLoop_frame (te ow : Bool) (opts : Opts)
    (l : List (String × Option Schema)) (req : Request) (k : String)
    (hk : ∀ p ∈ l, p.1 ≠ k) :
    errAt (validateLoop te ow opts l req).1 k = errAt req k ∧
    valAt (validateLoop te ow opts l req).1 k = valAt req k ∧
    propAt (validateLoop te ow opts l req).1 k = propAt req k := by
  induction l generalizing req with
  | nil => simp [validateLoop]
  | cons p rest ih =>
      obtain ⟨key, sch⟩ := p
      have hkey : key ≠ k := hk (key, sch) (List.mem_cons_self _ _)
      have hrest : ∀ p ∈ rest, p.1 ≠ k := fun p hp =>
        hk p (List.mem_cons_of_mem _ hp)
      cases sch with
      | none => simpa [validateLoop] using ih req hrest
      | some schema =>
          cases ho : schema opts (propAt req key) with
          | success data =>
              have h1 := ih (recordSuccess ow key data req) hrest
              simp [errAt_recordSuccess, valAt_recordSuccess,
                propAt_recordSuccess, hkey] at h1
              simp [validateLoop, ho]
              exact h1
          | failure error =>
              cases hte : te with
              | true =>
                  simp [validateLoop, ho, errAt_recordFailure,
                    valAt_recordFailure, propAt_recordFailure, hkey]
              | false =>
                  have h1 := ih (recordFailure key error req) hrest
                  simp [errAt_recordFailure, valAt_recordFailure,
                    propAt_recordFailure, hkey] at h1
                  rw [hte] at h1
                  simp [validateLoop, ho, hte]
                  exact h1
          | thrown e => simp [validateLoop, ho]

theorem validateLoop_inv (te ow : Bool) (opts : Opts)
    (l : List (String × Option Schema)) (req : Request)
    (h : ∀ k, errAt req k = none ∨ valAt req k = none) :
    ∀ k, errAt (validateLoop te ow opts l req).1 k = none ∨
      valAt (validateLoop te ow opts l req).1 k = none := by
  induction l generalizing req with
  | nil => simpa [validateLoop] using h
  | cons p rest ih =>
      obtain ⟨key, sch⟩ := p
      cases sch with
      | none => simpa [validateLoop] using ih req h
      | some schema =>
          cases ho : schema opts (propAt req key) with
          | success data =>
              have hstep : ∀ k,
                  errAt (recordSuccess ow key data req) k = none ∨
                  valAt (recordSuccess ow key data req) k = none := by
                intro k
                by_cases hkk : key = k
                · exact Or.inl (by simp [errAt_recordSuccess, hkk])
                · rcases h k with h1 | h1
                  · exact Or.inl (by simp [errAt_recordSuccess, hkk, h1])
                  · exact Or.inr (by simp [valAt_recordSuccess, hkk, h1])
              simpa [validateLoop, ho] using
                ih (recordSuccess ow key data req) hstep
          | failure error =>
              have hstep : ∀ k,
                  errAt (recordFailure key error req) k = none ∨
                  valAt (recordFailure key error req) k = none := by
                intro k
                by_cases hkk : key = k
                · exact Or.inr (by simp [valAt_recordFailure, hkk])
                · rcases h k with h1 | h1
                  · exact Or.inl (by simp [errAt_recordFailure, hkk, h1])
                  · exact Or.inr (by simp [valAt_recordFailure, hkk, h1])
              cases hte : te with
              | true => simpa [validateLoop, ho, hte] using hstep
              | false =>
                  simpa [validateLoop, ho, hte] using
                    ih (recordFailure key error req) hstep
          | thrown e => simpa [validateLoop, ho] using h

theorem validateLoop_reqData_of_not_overwrite (te : Bool) (opts : Opts)
    (l : List (String × Option Schema)) (req : Request) :
    (validateLoop te false opts l req).1.reqData = req.reqData := by
  induction l generalizing req with
  | nil => simp [validateLoop]
  | cons p rest ih =>
      obtain ⟨key, sch⟩ := p
      cases sch with
      | none => simpa [validateLoop] using ih req
      | some schema =>
          cases ho : schema opts (propAt req key) with
          | success data =>
              have h1 := ih (recordSuccess false key data req)
              simpa [validateLoop, ho, recordSuccess] using h1
          | failure error =>
              cases hte : te with
              | true => simp [validateLoop, ho, hte, recordFailure]
              | false =>
                  have h1 := ih (recordFailure key error req)
                  simpa [validateLoop, ho, hte, recordFailure] using h1
          | thrown e => simp [validateLoop, ho]

/-- Agreement of two requests on everything except the stored configuration
record. -/
def eqExceptCfg (r1 r2 : Request) : Prop :=
  r1.reqData = r2.reqData ∧ r1.validationErrors = r2.validationErrors ∧
    r1.validationValues = r2.validationValues

/-- Agreement of two middleware outcomes on the live data, both outcome
maps and the argument passed to `next`. -/
def sameOutcome (a b : Request × NextArg) : Prop :=
  eqExceptCfg a.1 b.1 ∧ a.2 = b.2

theorem eqExceptCfg_recordSuccess (ow : Bool) (key : String) (data : Value)
    (r1 r2 : Request) (h : eqExceptCfg r1 r2) :
    eqExceptCfg (recordSuccess ow key data r1) (recordSuccess ow key data r2) := by
  obtain ⟨h1, h2, h3⟩ := h
  cases ow <;> simp [recordSuccess, eqExceptCfg, h1, h2, h3]

theorem eqExceptCfg_recordFailure (key : String) (error : ZErr)
    (r1 r2 : Request) (h : eqExceptCfg r1 r2) :
    eqExceptCfg (recordFailure key error r1) (recordFailure key error r2) := by
  obtain ⟨h1, h2, h3⟩ := h
  simp [recordFailure, eqExceptCfg, h1, h2, h3]

theorem propAt_eqExceptCfg (r1 r2 : Request) (h : eqExceptCfg r1 r2)
    (k : String) : propAt r1 k = propAt r2 k := by
  simp [propAt, h.1]

/-- The part loop never reads nor writes the stored configuration record:
runs from two requests agreeing outside it stay in lock-step. -/
theorem validateLoop_cfgIrrelevant (te ow : Bool) (opts : Opts)
    (l : List (String × Option Schema)) (r1 r2 : Request)
    (h : eqExceptCfg r1 r2) :
    eqExceptCfg (validateLoop te ow opts l r1).1
      (validateLoop te ow opts l r2).1 ∧
    (validateLoop te ow opts l r1).2 = (validateLoop te ow opts l r2).2 := by
  induction l generalizing r1 r2 with
  | nil => simpa [validateLoop] using h
  | cons p rest ih =>
      obtain ⟨key, sch⟩ := p
      cases sch with
      | none => simpa [validateLoop] using ih r1 r2 h
      | some schema =>
          have hp : propAt r2 key = propAt r1 key :=
            (propAt_eqExceptCfg r1 r2 h key).symm
          cases ho : schema opts (propAt r1 key) with
          | success data =>
              have h1 := ih (recordSuccess ow key data r1)
                (recordSuccess ow key data r2)
                (eqExceptCfg_recordSuccess ow key data r1 r2 h)
              simpa [validateLoop, hp, ho] using h1
          | failure error =>
              cases hte : te with
              | true =>
                  exact ⟨by simpa [validateLoop, hp, ho] using
                      eqExceptCfg_recordFailure key error r1 r2 h,
                    by simp [validateLoop, hp, ho]⟩
              | false =>
                  have h1 := ih (recordFailure key error r1)
                    (recordFailure key error r2)
                    (eqExceptCfg_recordFailure key error r1 r2 h)
                  rw [hte] at h1
                  simpa [validateLoop, hp, ho] using h1
          | thrown e =>
              constructor
              · simpa [validateLoop, hp, ho] using h
              · simp [validateLoop, hp, ho]

/-! Concrete fixtures used by witnesses and counterexamples. -/

/-- A schema that accepts every input and produces the transformed value 7. -/
def sOK : Schema := fun _ _ => ParseOutcome.success (Value.vnat 7)

/-- A schema that rejects every input with structured error 3. -/
def sFail : Schema := fun _ _ => ParseOutcome.failure ⟨3⟩

/-- A schema whose evaluation throws engine exception 5. -/
def sThrow : Schema := fun _ _ => ParseOutcome.thrown 5

/-- A bare incoming request: no validation state attached yet. -/
def req0 : Request :=
  { reqData := [("headers", Value.vnat 1), ("body", Value.vnat 2)] }

/-- A request whose configuration middleware set throwErrors. -/
def reqTE : Request :=
  { reqData := [("headers", Value.vnat 1), ("body", Value.vnat 2)],
    validationConfigs := some { throwErrors := some true } }

/-- A request whose configuration middleware set overwriteRequest. -/
def reqOW : Request :=
  { reqData := [("headers", Value.vnat 1), ("body", Value.vnat 2)],
    validationConfigs := some { overwriteRequest := some true } }

/-- A request carrying outcome entries left by earlier validators. -/
def reqPre : Request :=
  { reqData := [("headers", Value.vnat 1), ("body", Value.vnat 2)],
    validationErrors := some [("headers", ⟨9⟩)],
    validationValues := some [("params", Value.vnat 4)] }

/-! Claim theorems. -/

/-- C1: for every invocation of the validate middleware and every part key,
after the invocation completes no key has entries in both the value map and
the error map simultaneously, provided the maps were disjoint before the
invocation (the invariant is preserved: a successful validation deletes any
prior error entry for its key, a failed validation deletes any prior value
entry for its key). -/
theorem C1_value_error_maps_disjoint
    (props : List (String × Option Schema)) (opts : Opts) (req : Request)
    (h : ∀ k, errAt req k = none ∨ valAt req k = none) :
    ∀ k, errAt (validate props opts req).1 k = none ∨
      valAt (validate props opts req).1 k = none := by
  have h0 : ∀ k, errAt (initState req) k = none ∨
      valAt (initState req) k = none := by
    intro k
    rcases h k with h1 | h1
    · exact Or.inl (by rw [errAt_initState]; exact h1)
    · exact Or.inr (by rw [valAt_initState]; exact h1)
  intro k
  exact validateLoop_inv (effThrowErrors req) (effOverwrite req) opts props
    (initState req) h0 k

/-- C1 witness: on a bare request (both maps absent, hence disjoint) with a
body schema, after validation the body key is absent from at least one map. -/
theorem C1_witness :
    errAt (validate [("body", some sOK)] none req0).1 "body" = none ∨
    valAt (validate [("body", some sOK)] none req0).1 "body" = none :=
  C1_value_error_maps_disjoint [("body", some sOK)] none req0
    (fun _ => Or.inl rfl) "body"

/-- C2: a configured part that the invocation actually processes (the loop
reaches its entry with `next` not yet diverted, stated as the run over the
preceding entries ending in `noArg`) ends with: on schema success, the value
map holding the transformed output under that key and the error map holding
no entry for it; on schema failure, the error map holding the structured
error under that key and the value map holding no entry for it. Later
entries carry distinct keys, as the entries of a JavaScript object do. -/
theorem C2_processed_part_outcome
    (l1 l2 : List (String × Option Schema)) (key : String) (schema : Schema)
    (opts : Opts) (req : Request)
    (hk2 : ∀ p ∈ l2, p.1 ≠ key)
    (hrun : (stage opts l1 req).2 = NextArg.noArg) :
    (∀ data, schema opts (propAt (stage opts l1 req).1 key) =
        ParseOutcome.success data →
      valAt (validate (l1 ++ (key, some schema) :: l2) opts req).1 key =
          some data ∧
      errAt (validate (l1 ++ (key, some schema) :: l2) opts req).1 key =
          none) ∧
    (∀ error, schema opts (propAt (stage opts l1 req).1 key) =
        ParseOutcome.failure error →
      errAt (validate (l1 ++ (key, some schema) :: l2) opts req).1 key =
          some error ∧
      valAt (validate (l1 ++ (key, some schema) :: l2) opts req).1 key =
          none) := by
  have happ : validate (l1 ++ (key, some schema) :: l2) opts req =
      validateLoop (effThrowErrors req) (effOverwrite req) opts
        ((key, some schema) :: l2) (stage opts l1 req).1 :=
    validateLoop_append (effThrowErrors req) (effOverwrite req) opts l1
      ((key, some schema) :: l2) (initState req) hrun
  constructor
  · intro data ho
    have hfr := validateLoop_frame (effThrowErrors req) (effOverwrite req)
      opts l2 (recordSuccess (effOverwrite req) key data (stage opts l1 req).1)
      key hk2
    rw [happ]
    simp [validateLoop, ho]
    refine ⟨?_, ?_⟩
    · rw [hfr.2.1, valAt_recordSuccess]
      simp
    · rw [hfr.1, errAt_recordSuccess]
      simp
  · intro error ho
    rw [happ]
    cases hte : effThrowErrors req with
    | true =>
        simp [validateLoop, ho, hte, errAt_recordFailure, valAt_recordFailure]
    | false =>
        have hfr := validateLoop_frame (effThrowErrors req) (effOverwrite req)
          opts l2 (recordFailure key error (stage opts l1 req).1) key hk2
        rw [hte] at hfr
        simp [validateLoop, ho, hte]
        refine ⟨?_, ?_⟩
        · rw [hfr.1, errAt_recordFailure]
          simp
        · rw [hfr.2.1, valAt_recordFailure]
          simp

/-- C2 witness: a single accepting body schema on a bare request yields the
transformed output in the value map and no error entry. -/
theorem C2_witness :
    valAt (validate [("body", some sOK)] none req0).1 "body" =
        some (Value.vnat 7) ∧
    errAt (validate [("body", some sOK)] none req0).1 "body" = none :=
  (C2_processed_part_outcome [] [] "body" sOK none req0 (by simp) rfl).1
    (Value.vnat 7) rfl

/-- C3: with throwErrors in force, a failing part ends the invocation at
once: the result is exactly the state the earlier entries built, updated by
recording this single failure, paired with `next(error)`; the remaining
entries are never consulted (the result does not depend on them), and every
key other than the failing one keeps the outcome the earlier entries
produced. -/
theorem C3_throw_short_circuit
    (l1 l2 : List (String × Option Schema)) (key : String) (schema : Schema)
    (opts : Opts) (req : Request) (error : ZErr)
    (hte : effThrowErrors req = true)
    (hrun : (stage opts l1 req).2 = NextArg.noArg)
    (hfail : schema opts (propAt (stage opts l1 req).1 key) =
      ParseOutcome.failure error) :
    validate (l1 ++ (key, some schema) :: l2) opts req =
      (recordFailure key error (stage opts l1 req).1,
        NextArg.errArg error) ∧
    ∀ k, k ≠ key →
      errAt (recordFailure key error (stage opts l1 req).1) k =
          errAt (stage opts l1 req).1 k ∧
      valAt (recordFailure key error (stage opts l1 req).1) k =
          valAt (stage opts l1 req).1 k := by
  constructor
  · have happ : validate (l1 ++ (key, some schema) :: l2) opts req =
        validateLoop (effThrowErrors req) (effOverwrite req) opts
          ((key, some schema) :: l2) (stage opts l1 req).1 :=
      validateLoop_append (effThrowErrors req) (effOverwrite req) opts l1
        ((key, some schema) :: l2) (initState req) hrun
    rw [happ]
    simp [validateLoop, hfail, hte]
  · intro k hk
    have hne : key ≠ k := fun he => hk he.symm
    constructor
    · rw [errAt_recordFailure]
      simp [hne]
    · rw [valAt_recordFailure]
      simp [hne]

/-- C3 witness: headers succeed, body fails under throwErrors; the query
entry after the failing body is never processed, while the headers outcome
is retained. -/
theorem C3_witness :
    validate [("headers", some sOK), ("body", some sFail),
        ("query", some sOK)] none reqTE =
      (recordFailure "body" ⟨3⟩
        (stage none [("headers", some sOK)] reqTE).1,
        NextArg.errArg ⟨3⟩) ∧
    errAt (recordFailure "body" ⟨3⟩
        (stage none [("headers", some sOK)] reqTE).1) "headers" =
      errAt (stage none [("headers", some sOK)] reqTE).1 "headers" :=
  ⟨(C3_throw_short_circuit [("headers", some sOK)] [("query", some sOK)]
      "body" sFail none reqTE ⟨3⟩ rfl rfl rfl).1,
   ((C3_throw_short_circuit [("headers", some sOK)] [("query", some sOK)]
      "body" sFail none reqTE ⟨3⟩ rfl rfl rfl).2 "headers" (by decide)).1⟩

/-- C4 counterexample: with throwErrors set and a failing body schema, the
failure is surfaced to the framework via `next(error)`, yet the error map
DOES hold an entry for the failing key afterwards (the source records the
error before returning), refuting the claim that the error map has no entry
for the failing key. -/
theorem C4_counterexample :
    (validate [("body", some sFail)] none reqTE).2 = NextArg.errArg ⟨3⟩ ∧
    errAt (validate [("body", some sFail)] none reqTE).1 "body" = some ⟨3⟩ ∧
    errAt (validate [("body", some sFail)] none reqTE).1 "body" ≠ none := by
  exact ⟨rfl, rfl, by decide⟩

/-- C4 amended: when throwErrors is in force and a processed part fails, the
failure is surfaced to the framework error path AND the structured error is
also recorded in the error map under the failing key, with the value-map
entry for that key deleted. -/
theorem C4_amended_throw_records_and_forwards
    (l1 l2 : List (String × Option Schema)) (key : String) (schema : Schema)
    (opts : Opts) (req : Request) (error : ZErr)
    (hte : effThrowErrors req = true)
    (hrun : (stage opts l1 req).2 = NextArg.noArg)
    (hfail : schema opts (propAt (stage opts l1 req).1 key) =
      ParseOutcome.failure error) :
    (validate (l1 ++ (key, some schema) :: l2) opts req).2 =
        NextArg.errArg error ∧
    errAt (validate (l1 ++ (key, some schema) :: l2) opts req).1 key =
        some error ∧
    valAt (validate (l1 ++ (key, some schema) :: l2) opts req).1 key =
        none := by
  have happ : validate (l1 ++ (key, some schema) :: l2) opts req =
      validateLoop (effThrowErrors req) (effOverwrite req) opts
        ((key, some schema) :: l2) (stage opts l1 req).1 :=
    validateLoop_append (effThrowErrors req) (effOverwrite req) opts l1
      ((key, some schema) :: l2) (initState req) hrun
  rw [happ]
  simp [validateLoop, hfail, hte, errAt_recordFailure, valAt_recordFailure]

/-- C4 witness: concrete failing body part under throwErrors, forwarded and
recorded. -/
theorem C4_witness :
    (validate [("body", some sFail)] none reqTE).2 =
        NextArg.errArg ⟨3⟩ ∧
    errAt (validate [("body", some sFail)] none reqTE).1 "body" =
        some ⟨3⟩ ∧
    valAt (validate [("body", some sFail)] none reqTE).1 "body" = none :=
  C4_amended_throw_records_and_forwards [] [] "body" sFail none reqTE ⟨3⟩
    rfl rfl rfl

/-- C5 counterexample: the middleware follows the order in which the keys
were supplied, not the fixed order headers, params, query, body. With
throwErrors set, supplying body before headers makes the failing body entry
run first and short-circuit, so the accepting headers schema is never
processed (no headers value recorded); supplying the same entries in the
fixed order records the headers value. The two runs differ outright. -/
theorem C5_counterexample :
    valAt (validate [("body", some sFail), ("headers", some sOK)] none
      reqTE).1 "headers" = none ∧
    valAt (validate [("headers", some sOK), ("body", some sFail)] none
      reqTE).1 "headers" = some (Value.vnat 7) ∧
    validate [("body", some sFail), ("headers", some sOK)] none reqTE ≠
      validate [("headers", some sOK), ("body", some sFail)] none reqTE := by
  refine ⟨rfl, rfl, ?_⟩
  decide

/-- C5 amended: the middleware processes the configured parts strictly
sequentially in the order their keys appear in the schema map (JavaScript
object insertion order): a run over a split list first runs the earlier
entries and, when they finish without diverting `next`, continues over the
later entries from the state they produced. -/
theorem C5_amended_insertion_order
    (l1 l2 : List (String × Option Schema)) (opts : Opts) (req : Request)
    (hrun : (stage opts l1 req).2 = NextArg.noArg) :
    validate (l1 ++ l2) opts req =
      validateLoop (effThrowErrors req) (effOverwrite req) opts l2
        (stage opts l1 req).1 :=
  validateLoop_append (effThrowErrors req) (effOverwrite req) opts l1 l2
    (initState req) hrun

/-- C5 witness: concrete split run, body entry first, headers entry second. -/
theorem C5_witness :
    validate [("body", some sOK), ("headers", some sOK)] none req0 =
      validateLoop (effThrowErrors req0) (effOverwrite req0) none
        [("headers", some sOK)] (stage none [("body", some sOK)] req0).1 :=
  C5_amended_insertion_order [("body", some sOK)] [("headers", some sOK)]
    none req0 rfl

/-- C6: when the effective overwriteRequest switch is true, a successfully
processed part leaves the live request data for its key equal to the
transformed output; when it is false, the live request data of every key is
left unchanged by the whole invocation regardless of outcome. -/
theorem C6_overwrite_semantics :
    (∀ l1 l2 key schema opts req data,
      effOverwrite req = true →
      (∀ p ∈ l2, p.1 ≠ key) →
      (stage opts l1 req).2 = NextArg.noArg →
      schema opts (propAt (stage opts l1 req).1 key) =
        ParseOutcome.success data →
      propAt (validate (l1 ++ (key, some schema) :: l2) opts req).1 key =
        data) ∧
    (∀ props opts req,
      effOverwrite req = false →
      ∀ k, propAt (validate props opts req).1 k = propAt req k) := by
  constructor
  · intro l1 l2 key schema opts req data how hk2 hrun ho
    have happ : validate (l1 ++ (key, some schema) :: l2) opts req =
        validateLoop (effThrowErrors req) (effOverwrite req) opts
          ((key, some schema) :: l2) (stage opts l1 req).1 :=
      validateLoop_append (effThrowErrors req) (effOverwrite req) opts l1
        ((key, some schema) :: l2) (initState req) hrun
    have hfr := validateLoop_frame (effThrowErrors req) (effOverwrite req)
      opts l2 (recordSuccess (effOverwrite req) key data (stage opts l1 req).1)
      key hk2
    rw [happ]
    simp [validateLoop, ho]
    rw [hfr.2.2, propAt_recordSuccess]
    simp [how]
  · intro props opts req how k
    have h1 := validateLoop_reqData_of_not_overwrite (effThrowErrors req)
      opts props (initState req)
    have h2 : (validate props opts req).1.reqData = req.reqData := by
      have : validate props opts req =
          validateLoop (effThrowErrors req) false opts props (initState req) := by
        rw [validate, stage, how]
      rw [this, h1, initState]
    simp [propAt, h2]

/-- C6 witness: with overwriteRequest the live body becomes the transformed
value 7; without it the live body is untouched. -/
theorem C6_witness :
    propAt (validate [("body", some sOK)] none reqOW).1 "body" =
        Value.vnat 7 ∧
    propAt (validate [("body", some sOK)] none req0).1 "body" =
        propAt req0 "body" :=
  ⟨C6_overwrite_semantics.1 [] [] "body" sOK none reqOW (Value.vnat 7)
      rfl (by simp) rfl rfl,
   C6_overwrite_semantics.2 [("body", some sOK)] none req0 rfl "body"⟩

/-- C7 counterexample: a schema-map entry under the unrecognized key
cookies is NOT ignored at run time: the loop iterates every supplied entry,
so the value map afterwards holds an entry under cookies, refuting the
claim that no entry is written for keys outside headers, params, query,
body. -/
theorem C7_counterexample :
    ("cookies" ∉ ["headers", "params", "query", "body"]) ∧
    valAt (validate [("cookies", some sOK)] none req0).1 "cookies" =
      some (Value.vnat 7) := by
  exact ⟨by decide, rfl⟩

/-- C7 amended: every entry of the schema map is treated uniformly at run
time, whatever its key: an entry with a present schema is validated against
the request property of the same name and its outcome recorded in the maps
under that key; only an entry whose schema is absent is skipped. The
restriction to the four recognized keys lives in the TypeScript type of the
schema map, not in the loop. -/
theorem C7_amended_any_key_processed
    (key : String) (schema : Schema) (opts : Opts) (req : Request) :
    (∀ data, schema opts (propAt req key) = ParseOutcome.success data →
      valAt (validate [(key, some schema)] opts req).1 key = some data) ∧
    (∀ error, schema opts (propAt req key) = ParseOutcome.failure error →
      errAt (validate [(key, some schema)] opts req).1 key = some error) ∧
    validate [(key, none)] opts req = (initState req, NextArg.noArg) := by
  refine ⟨?_, ?_, ?_⟩
  · intro data ho
    have ho' : schema opts (propAt (initState req) key) =
        ParseOutcome.success data := by rw [propAt_initState]; exact ho
    show valAt (validateLoop (effThrowErrors req) (effOverwrite req) opts
      [(key, some schema)] (initState req)).1 key = some data
    simp [validateLoop, ho', valAt_recordSuccess]
  · intro error ho
    have ho' : schema opts (propAt (initState req) key) =
        ParseOutcome.failure error := by rw [propAt_initState]; exact ho
    show errAt (validateLoop (effThrowErrors req) (effOverwrite req) opts
      [(key, some schema)] (initState req)).1 key = some error
    cases hte : effThrowErrors req with
    | true => simp [validateLoop, ho', hte, errAt_recordFailure]
    | false => simp [validateLoop, ho', hte, errAt_recordFailure]
  · rfl

/-- C7 witness: the cookies entry is validated and recorded like any other,
and an entry with an absent schema is skipped. -/
theorem C7_witness :
    valAt (validate [("cookies", some sOK)] none reqTE).1 "cookies" =
        some (Value.vnat 7) ∧
    validate [("cookies", none)] none reqTE =
        (initState reqTE, NextArg.noArg) :=
  ⟨(C7_amended_any_key_processed "cookies" sOK none reqTE).1
      (Value.vnat 7) rfl,
   (C7_amended_any_key_processed "cookies" sOK none reqTE).2.2⟩

/-- C8: when the schema engine throws at a processed part rather than
returning a result, the invocation ends with `next` receiving that
exception unchanged, and the final request state is exactly the state the
earlier entries built: nothing is recorded for the throwing key, every
entry the earlier parts recorded remains, and later entries are never
consulted. -/
theorem C8_engine_exception_forwarded
    (l1 l2 : List (String × Option Schema)) (key : String) (schema : Schema)
    (opts : Opts) (req : Request) (e : Exn)
    (hrun : (stage opts l1 req).2 = NextArg.noArg)
    (hthrow : schema opts (propAt (stage opts l1 req).1 key) =
      ParseOutcome.thrown e) :
    validate (l1 ++ (key, some schema) :: l2) opts req =
      ((stage opts l1 req).1, NextArg.exnArg e) := by
  have happ : validate (l1 ++ (key, some schema) :: l2) opts req =
      validateLoop (effThrowErrors req) (effOverwrite req) opts
        ((key, some schema) :: l2) (stage opts l1 req).1 :=
    validateLoop_append (effThrowErrors req) (effOverwrite req) opts l1
      ((key, some schema) :: l2) (initState req) hrun
  rw [happ]
  simp [validateLoop, hthrow]

/-- C8 witness: headers succeed, then the body schema throws exception 5;
the exception is forwarded and the state is the one headers produced. -/
theorem C8_witness :
    validate [("headers", some sOK), ("body", some sThrow), ("query",
        some sOK)] none req0 =
      ((stage none [("headers", some sOK)] req0).1, NextArg.exnArg 5) :=
  C8_engine_exception_forwarded [("headers", some sOK)]
    [("query", some sOK)] "body" sThrow none req0 5 rfl rfl

/-- C9: a validate invocation modifies only the entries of the part keys
named in its own schema map: for every other key, the error-map entry, the
value-map entry and the live request data are identical before and after
the invocation. -/
theorem C9_untouched_parts_preserved
    (props : List (String × Option Schema)) (opts : Opts) (req : Request)
    (k : String) (hk : ∀ p ∈ props, p.1 ≠ k) :
    errAt (validate props opts req).1 k = errAt req k ∧
    valAt (validate props opts req).1 k = valAt req k ∧
    propAt (validate props opts req).1 k = propAt req k := by
  have hfr := validateLoop_frame (effThrowErrors req) (effOverwrite req)
    opts props (initState req) k hk
  refine ⟨?_, ?_, ?_⟩
  · show errAt (validateLoop (effThrowErrors req) (effOverwrite req) opts
      props (initState req)).1 k = errAt req k
    rw [hfr.1, errAt_initState]
  · show valAt (validateLoop (effThrowErrors req) (effOverwrite req) opts
      props (initState req)).1 k = valAt req k
    rw [hfr.2.1, valAt_initState]
  · show propAt (validateLoop (effThrowErrors req) (effOverwrite req) opts
      props (initState req)).1 k = propAt req k
    rw [hfr.2.2, propAt_initState]

/-- C9 witness: on a request already carrying a headers error and a params
value from earlier validators, a body-only invocation leaves both foreign
entries unchanged. -/
theorem C9_witness :
    errAt (validate [("body", some sOK)] none reqPre).1 "headers" =
        errAt reqPre "headers" ∧
    valAt (validate [("body", some sOK)] none reqPre).1 "params" =
        valAt reqPre "params" :=
  ⟨(C9_untouched_parts_preserved [("body", some sOK)] none reqPre
      "headers" (by decide)).1,
   (C9_untouched_parts_preserved [("body", some sOK)] none reqPre
      "params" (by decide)).2.1⟩

/-- C10: the effective configuration is resolved per field with false as
the default for each switch independently: an absent configuration record
behaves like the record with both switches false; an empty record likewise;
a record set by the configuration middleware carrying only throwErrors
behaves like the same record with overwriteRequest explicitly false, and
symmetrically for a record carrying only overwriteRequest. Outcomes are
compared on the live data, both maps and the `next` argument. -/
theorem C10_config_defaulting
    (props : List (String × Option Schema)) (opts : Opts) (req : Request)
    (b : Bool) :
    sameOutcome
      (validate props opts { req with validationConfigs := none })
      (validate props opts
        { req with validationConfigs := some ⟨some false, some false⟩ }) ∧
    sameOutcome
      (validate props opts
        (expressZodValidations ⟨none, none⟩ req).1)
      (validate props opts
        (expressZodValidations ⟨some false, some false⟩ req).1) ∧
    sameOutcome
      (validate props opts
        (expressZodValidations ⟨some b, none⟩ req).1)
      (validate props opts
        (expressZodValidations ⟨some b, some false⟩ req).1) ∧
    sameOutcome
      (validate props opts
        (expressZodValidations ⟨none, some b⟩ req).1)
      (validate props opts
        (expressZodValidations ⟨some false, some b⟩ req).1) := by
  refine ⟨?_, ?_, ?_, ?_⟩
  · exact validateLoop_cfgIrrelevant false false opts props
      (initState { req with validationConfigs := none })
      (initState
        { req with validationConfigs := some ⟨some false, some false⟩ })
      (by simp [initState, eqExceptCfg])
  · exact validateLoop_cfgIrrelevant false false opts props
      (initState { req with validationConfigs := some ⟨none, none⟩ })
      (initState
        { req with validationConfigs := some ⟨some false, some false⟩ })
      (by simp [initState, eqExceptCfg])
  · exact validateLoop_cfgIrrelevant b false opts props
      (initState { req with validationConfigs := some ⟨some b, none⟩ })
      (initState
        { req with validationConfigs := some ⟨some b, some false⟩ })
      (by simp [initState, eqExceptCfg])
  · exact validateLoop_cfgIrrelevant false b opts props
      (initState { req with validationConfigs := some ⟨none, some b⟩ })
      (initState
        { req with validationConfigs := some ⟨some false, some b⟩ })
      (by simp [initState, eqExceptCfg])

end EZV
